import Mathlib

/-!
Verification of the form-field core of `app.py` (PDF designer/filler).

The Python program manipulates a pdfrw object graph.  We embed the parts the
specification talks about: annotation dictionaries (widgets), pages, the
document with its AcroForm container, the widget scanner `_get_widgets`, the
value applier `fill`, and the field synthesizer `build`.  Dictionary nodes
become fixed-shape records carrying the keys the program reads or writes;
Python floats become rationals; the mutable object graph becomes explicit
state passing, with an annotation identified by its (page, index) position.
-/

namespace PDFApp

/-- An annotation dictionary node (pdfrw `PdfDict`), restricted to the keys
`app.py` reads or writes: `/Subtype`, `/T`, `/FT`, `/V`, `/AS`, the parent
field's name (for grouped buttons), `/Rect`, `/DA`, `/Ff`, `/F`. -/
structure Annot where
  subtype : Option String
  T : Option String
  FT : Option String
  V : Option String
  AS : Option String
  parentName : Option String
  rect : Option (ℚ × ℚ × ℚ × ℚ)
  DA : Option String
  Ff : Option Int
  F : Option Int
deriving DecidableEq, Repr

/-- An annotation node with every key absent. -/
def blankAnnot : Annot :=
  { subtype := none, T := none, FT := none, V := none, AS := none,
    parentName := none, rect := none, DA := none, Ff := none, F := none }

/-- A page: its `/Annots` annotation list (a missing list and an empty list
behave identically in `app.py`, which replaces `None` by `[]`). -/
structure Page where
  annots : List Annot
deriving DecidableEq, Repr

/-- The document: `pdf.Root.AcroForm` truthiness (pdfrw dicts are falsy when
empty or absent), the `NeedAppearances` flag, and the page list. -/
structure Doc where
  acroFormTruthy : Bool
  needAppearances : Bool
  pages : List Page
deriving DecidableEq, Repr

/-- The annotation at page `p`, index `i` (object identity in the Python
graph is modelled by position). -/
def annotAt (d : Doc) (p i : Nat) : Option Annot :=
  (d.pages[p]?).bind (fun pg => pg.annots[i]?)

/-- `_set_need_appearances`: create the AcroForm dict if missing/empty and set
`NeedAppearances = true` (after which the dict is nonempty, hence truthy). -/
def setNeedAppearances (d : Doc) : Doc :=
  { d with acroFormTruthy := true, needAppearances := true }

/-- Python `c in "()"`: the characters stripped by `.strip('()')`. -/
def isParenChar (c : Char) : Bool := c == '(' || c == ')'

/-- Python `s.strip('()')`: drop leading and trailing `(`/`)` characters. -/
def stripParens (s : String) : String :=
  String.mk (((s.toList.dropWhile isParenChar).reverse.dropWhile isParenChar).reverse)

/-- The field name `_get_widgets` derives from an annotation:
`(annot.get('/T') or '').strip('()') if annot.get('/T') else None`, then
`if not name: continue`.  `none` means the widget is skipped. -/
def nameOf (a : Annot) : Option String :=
  match a.T with
  | none => none
  | some t =>
    if t = "" then none
    else
      let s := stripParens t
      if s = "" then none else some s

/-- The key under which the scanner records an annotation: only `/Widget`
subtype annotations with a usable direct name are recorded. -/
def annotKey (a : Annot) : Option String :=
  if a.subtype = some "Widget" then nameOf a else none

/-- Scan one page's annotation list (annot index starting at `j`), yielding
`(name, index)` pairs in order for every recordable widget. -/
def scanAnnots : List Annot → Nat → List (String × Nat)
  | [], _ => []
  | a :: rest, j =>
    match annotKey a with
    | some n => (n, j) :: scanAnnots rest (j + 1)
    | none => scanAnnots rest (j + 1)

/-- Scan the page list (page index starting at `p`), yielding
`(name, page, index)` triples in page-then-annotation order. -/
def scanPages : List Page → Nat → List (String × Nat × Nat)
  | [], _ => []
  | pg :: rest, p =>
    (scanAnnots pg.annots 0).map (fun e => (e.1, p, e.2)) ++ scanPages rest (p + 1)

/-- The full scan sequence of `_get_widgets`: empty when the document has no
(truthy) AcroForm container, else all recordable widgets in scan order. -/
def scanned (d : Doc) : List (String × Nat × Nat) :=
  if d.acroFormTruthy then scanPages d.pages 0 else []

/-- Python-dict insertion: overwrite the value at an existing key in place,
else append the new key at the end (insertion order preserved). -/
def dictIns {α : Type} : List (String × α) → String → α → List (String × α)
  | [], k, v => [(k, v)]
  | e :: rest, k, v => if e.1 = k then (k, v) :: rest else e :: dictIns rest k v

/-- Dictionary lookup: the value at the first (in our dicts: only) entry
with key `k`. -/
def dictLookup {α : Type} : List (String × α) → String → Option α
  | [], _ => none
  | e :: m, k => if e.1 = k then some e.2 else dictLookup m k

/-- `fields[name] = annot` executed over the whole scan: the Python dict of
`_get_widgets`, mapping each name to the position of an annotation. -/
def fieldsDict (d : Doc) : List (String × Nat × Nat) :=
  (scanned d).foldl (fun m e => dictIns m e.1 e.2) []

/-- `_get_widgets(pdf)`: the name-to-widget dict plus the (always empty)
radio-selection dict; both returns of the Python function yield `{}` there. -/
def getWidgets (d : Doc) : List (String × Nat × Nat) × List (String × String) :=
  (fieldsDict d, [])

/-- The submitted form values `dict(request.form.items())`. -/
def valLookup (V : List (String × String)) (n : String) : Option String :=
  dictLookup V n

/-- `widget.update(PdfDict(V=str(values[name])))`: overwrite the `/V` key. -/
def setV (a : Annot) (v : String) : Annot := { a with V := some v }

/-- Apply a function to the element at index `n` (other elements, and lists
too short to have index `n`, are untouched). -/
def listModify {α : Type} : List α → Nat → (α → α) → List α
  | [], _, _ => []
  | a :: l, 0, f => f a :: l
  | a :: l, n + 1, f => a :: listModify l n f

/-- Set `/V` of the annotation at position `(p, i)` to `v`. -/
def updateAt (d : Doc) (p i : Nat) (v : String) : Doc :=
  { d with
    pages := listModify d.pages p
      (fun pg => { pg with annots := listModify pg.annots i (fun a => setV a v) }) }

/-- One iteration of the `fill` loop: `if name in values:
widget.update(PdfDict(V=str(values[name])))`. -/
def fillStep (V : List (String × String)) (d : Doc) (e : String × Nat × Nat) : Doc :=
  match valLookup V e.1 with
  | some v => updateAt d e.2.1 e.2.2 v
  | none => d

/-- The `fill` route's document mutation: set `NeedAppearances`, scan the
widgets, and write each submitted value into its widget's `/V`. -/
def fillDoc (d : Doc) (V : List (String × String)) : Doc :=
  let d1 := setNeedAppearances d
  (fieldsDict d1).foldl (fillStep V) d1

/-! ### The field synthesizer (`build` route) -/

/-- One entry of `template["fields"]`: 1-based page number, pixel-space
rectangle, and field name (the `type` key is never read by `build`). -/
structure FieldSpec where
  page : Int
  x : ℚ
  y : ℚ
  w : ℚ
  h : ℚ
  name : String
deriving DecidableEq, Repr

/-- The session template: field specs plus per-page `[width, height]` sizes. -/
structure Template where
  fields : List FieldSpec
  page_sizes : List (ℚ × ℚ)
deriving DecidableEq, Repr

/-- The ways the `build` route fails: empty template (flash + redirect), or
`tmpl["page_sizes"][idx-1]` raising `IndexError` at page number `idx`. -/
inductive BuildErr where
  | emptyTemplate : BuildErr
  | pageSizesIndex : Nat → BuildErr
deriving DecidableEq, Repr

/-- The new text widget `build` creates for one field spec on a page of
document-unit height `page_h`: `pdf_y = page_h - y - h`,
`rect = [x, pdf_y, x+w, pdf_y+h]`, wrapped name, empty value, default
appearance, printable flag. -/
def mkTextWidget (fld : FieldSpec) (page_h : ℚ) : Annot :=
  { subtype := some "Widget"
    T := some ("(" ++ fld.name ++ ")")
    FT := some "Tx"
    V := some ""
    AS := none
    parentName := none
    rect := some (fld.x, page_h - fld.y - fld.h,
                  fld.x + fld.w, (page_h - fld.y - fld.h) + fld.h)
    DA := some "(/Helv 10 Tf 0 g)"
    Ff := some 0
    F := some 4 }

/-- Process one page of the `build` loop body: append a new widget for every
template field whose `page` equals this page's 1-based number `idx`. -/
def buildPage (pg : Page) (idx : Nat) (tmpl : Template) (page_h : ℚ) : Page :=
  { pg with
    annots := pg.annots ++
      (tmpl.fields.filter (fun f => f.page == (idx : Int))).map
        (fun f => mkTextWidget f page_h) }

/-- The `for idx, page in enumerate(pdf.pages, start=1)` loop of `build`:
every page looks up `tmpl["page_sizes"][idx-1]` (even pages without fields);
a missing entry is the Python `IndexError` at that page number. -/
def buildPages : List Page → Nat → Template → Except BuildErr (List Page)
  | [], _, _ => Except.ok []
  | pg :: rest, idx, tmpl =>
    match tmpl.page_sizes[idx - 1]? with
    | none => Except.error (BuildErr.pageSizesIndex idx)
    | some wh =>
      match buildPages rest (idx + 1) tmpl with
      | Except.error e => Except.error e
      | Except.ok rest' => Except.ok (buildPage pg idx tmpl wh.2 :: rest')

/-- The `build` route's document transformation: reject an empty template
before touching the document, else set `NeedAppearances` and synthesize the
new widgets page by page. -/
def build (d : Doc) (tmpl : Template) : Except BuildErr Doc :=
  if tmpl.fields = [] then Except.error BuildErr.emptyTemplate
  else
    let d1 := setNeedAppearances d
    match buildPages d1.pages 1 tmpl with
    | Except.error e => Except.error e
    | Except.ok ps => Except.ok { d1 with pages := ps }

/-- Modelled from the spec (the code lacks this): the rectangle the
specification prescribes for a field captured at pixel `(x, y)` with zoom
`z` on a page of height `H` — divide by the zoom factor, then flip the
y-axis: `(x/z, H - y/z - h, x/z + w, H - y/z - h + h)`. -/
def specSynthRect (z x y w h H : ℚ) : ℚ × ℚ × ℚ × ℚ :=
  (x / z, H - y / z - h, x / z + w, (H - y / z - h) + h)

/-! ### Basic lemmas: `listModify`, `setV`, `updateAt` -/

theorem length_listModify {α : Type} (l : List α) (n : Nat) (f : α → α) :
    (listModify l n f).length = l.length := by
  induction l generalizing n with
  | nil => rfl
  | cons a t ih =>
    cases n with
    | zero => rfl
    | succ m => simp [listModify, ih]

theorem getElem?_listModify_self {α : Type} (l : List α) (n : Nat) (f : α → α) :
    (listModify l n f)[n]? = (l[n]?).map f := by
  induction l generalizing n with
  | nil => simp [listModify]
  | cons a t ih =>
    cases n with
    | zero => simp [listModify]
    | succ m => simp [listModify, ih]

theorem getElem?_listModify_other {α : Type} (l : List α) (n m : Nat) (f : α → α)
    (h : m ≠ n) : (listModify l n f)[m]? = l[m]? := by
  induction l generalizing n m with
  | nil => simp [listModify]
  | cons a t ih =>
    cases n with
    | zero =>
      cases m with
      | zero => exact absurd rfl h
      | succ m' => simp [listModify]
    | succ n' =>
      cases m with
      | zero => simp [listModify]
      | succ m' => simp [listModify, ih n' m' (fun hc => h (by omega))]

theorem setV_setV (a : Annot) (v v' : String) : setV (setV a v') v = setV a v := rfl

theorem annotKey_setV (a : Annot) (v : String) : annotKey (setV a v) = annotKey a := rfl

theorem updateAt_acroForm (d : Doc) (p i : Nat) (v : String) :
    (updateAt d p i v).acroFormTruthy = d.acroFormTruthy := rfl

theorem updateAt_needApp (d : Doc) (p i : Nat) (v : String) :
    (updateAt d p i v).needAppearances = d.needAppearances := rfl

theorem annotAt_updateAt_self (d : Doc) (p i : Nat) (v : String) :
    annotAt (updateAt d p i v) p i = (annotAt d p i).map (fun a => setV a v) := by
  unfold annotAt updateAt
  rw [getElem?_listModify_self]
  cases d.pages[p]? with
  | none => rfl
  | some pg => simp [getElem?_listModify_self]

theorem annotAt_updateAt_other (d : Doc) (p i p' i' : Nat) (v : String)
    (h : p' ≠ p ∨ i' ≠ i) :
    annotAt (updateAt d p i v) p' i' = annotAt d p' i' := by
  unfold annotAt updateAt
  rcases h with hp | hi
  · rw [getElem?_listModify_other _ _ _ _ hp]
  · by_cases hp : p' = p
    · subst hp
      rw [getElem?_listModify_self]
      cases d.pages[p']? with
      | none => rfl
      | some pg => simp [getElem?_listModify_other _ _ _ _ hi]
    · rw [getElem?_listModify_other _ _ _ _ hp]

/-! ### Dictionary lemmas -/

theorem mem_dictIns {α : Type} (m : List (String × α)) (k : String) (v : α)
    (x : String × α) (h : x ∈ dictIns m k v) : x ∈ m ∨ x = (k, v) := by
  induction m with
  | nil => simpa [dictIns] using h
  | cons e rest ih =>
    by_cases he : e.1 = k
    · simp only [dictIns, if_pos he, List.mem_cons] at h
      rcases h with h | h
      · right; exact h
      · left; exact List.mem_cons_of_mem _ h
    · simp only [dictIns, if_neg he, List.mem_cons] at h
      rcases h with h | h
      · left; exact h ▸ List.mem_cons_self _ _
      · rcases ih h with h' | h'
        · left; exact List.mem_cons_of_mem _ h'
        · right; exact h'

theorem dictLookup_dictIns_self {α : Type} (m : List (String × α)) (k : String) (v : α) :
    dictLookup (dictIns m k v) k = some v := by
  induction m with
  | nil => simp [dictIns, dictLookup]
  | cons e rest ih =>
    by_cases he : e.1 = k
    · simp [dictIns, if_pos he, dictLookup]
    · simpa [dictIns, if_neg he, dictLookup, he] using ih

theorem dictLookup_dictIns_other {α : Type} (m : List (String × α)) (k k' : String)
    (v : α) (h : k' ≠ k) : dictLookup (dictIns m k v) k' = dictLookup m k' := by
  have hk : ¬ k = k' := fun hc => h hc.symm
  induction m with
  | nil => simp [dictIns, dictLookup, hk]
  | cons e rest ih =>
    by_cases he : e.1 = k
    · simp [dictIns, if_pos he, dictLookup, he, hk]
    · by_cases hek : e.1 = k'
      · simp [dictIns, if_neg he, dictLookup, hek, h]
      · simpa [dictIns, if_neg he, dictLookup, hek] using ih

/-- The value attached to the last entry of `ps` bearing key `k` (the value a
Python dict built by repeated assignment ends up holding). -/
def lookupLast {α : Type} (ps : List (String × α)) (k : String) : Option α :=
  ps.foldl (fun acc e => if e.1 = k then some e.2 else acc) none

theorem foldl_lastWrite {α : Type} (k : String) (ps : List (String × α)) :
    ∀ acc : Option α,
      ps.foldl (fun acc e => if e.1 = k then some e.2 else acc) acc =
        match lookupLast ps k with
        | some v => some v
        | none => acc := by
  induction ps with
  | nil => intro acc; rfl
  | cons e rest ih =>
    intro acc
    rw [List.foldl_cons, ih]
    by_cases he : e.1 = k
    · rw [show lookupLast (e :: rest) k =
          rest.foldl (fun acc e => if e.1 = k then some e.2 else acc) (some e.2) by
            simp [lookupLast, he], ih (some e.2)]
      cases lookupLast rest k <;> simp [he]
    · rw [show lookupLast (e :: rest) k =
          rest.foldl (fun acc e => if e.1 = k then some e.2 else acc) none by
            simp [lookupLast, he], ih none]
      cases lookupLast rest k <;> simp [he]

theorem dictLookup_foldl_dictIns {α : Type} (k : String) (ps : List (String × α)) :
    ∀ m : List (String × α),
      dictLookup (ps.foldl (fun m e => dictIns m e.1 e.2) m) k =
        match lookupLast ps k with
        | some v => some v
        | none => dictLookup m k := by
  induction ps with
  | nil => intro m; rfl
  | cons e rest ih =>
    intro m
    rw [List.foldl_cons, ih]
    have hcons : lookupLast (e :: rest) k =
        match lookupLast rest k with
        | some v => some v
        | none => if e.1 = k then some e.2 else none := by
      rw [show lookupLast (e :: rest) k =
          rest.foldl (fun acc e => if e.1 = k then some e.2 else acc)
            (if e.1 = k then some e.2 else none) by simp [lookupLast],
        foldl_lastWrite]
    rw [hcons]
    cases lookupLast rest k with
    | some v => rfl
    | none =>
      by_cases he : e.1 = k
      · subst he; simp [dictLookup_dictIns_self]
      · simp [he, dictLookup_dictIns_other m e.1 k e.2 (fun hc => he hc.symm)]

/-! ### Scan membership: every scanned entry points at a widget bearing
its name -/

theorem scanAnnots_mem (e : String × Nat) :
    ∀ (l : List Annot) (j : Nat), e ∈ scanAnnots l j →
      j ≤ e.2 ∧ ∃ a, l[e.2 - j]? = some a ∧ annotKey a = some e.1 := by
  intro l
  induction l with
  | nil => intro j h; simp [scanAnnots] at h
  | cons a rest ih =>
    intro j h
    cases hk : annotKey a with
    | some n =>
      rw [scanAnnots, hk, List.mem_cons] at h
      rcases h with h | h
      · subst h
        exact ⟨Nat.le_refl _, a, by simp, hk⟩
      · obtain ⟨hj, a', ha', hk'⟩ := ih (j + 1) h
        refine ⟨by omega, a', ?_, hk'⟩
        rw [show e.2 - j = (e.2 - (j + 1)) + 1 by omega]
        simpa using ha'
    | none =>
      rw [scanAnnots, hk] at h
      obtain ⟨hj, a', ha', hk'⟩ := ih (j + 1) h
      refine ⟨by omega, a', ?_, hk'⟩
      rw [show e.2 - j = (e.2 - (j + 1)) + 1 by omega]
      simpa using ha'

theorem scanPages_mem (e : String × Nat × Nat) :
    ∀ (pl : List Page) (q : Nat), e ∈ scanPages pl q →
      q ≤ e.2.1 ∧ ∃ pg, pl[e.2.1 - q]? = some pg ∧ (e.1, e.2.2) ∈ scanAnnots pg.annots 0 := by
  intro pl
  induction pl with
  | nil => intro q h; simp [scanPages] at h
  | cons pg rest ih =>
    intro q h
    rw [scanPages, List.mem_append] at h
    rcases h with h | h
    · rw [List.mem_map] at h
      obtain ⟨e', he', heq⟩ := h
      refine ⟨by rw [← heq], pg, ?_, ?_⟩
      · rw [← heq]; simp
      · have h1 : e.1 = e'.1 := by rw [← heq]
        have h2 : e.2.2 = e'.2 := by rw [← heq]
        rw [h1, h2]
        exact he'
    · obtain ⟨hq, pg', hpg', hmem⟩ := ih (q + 1) h
      refine ⟨by omega, pg', ?_, hmem⟩
      rw [show e.2.1 - q = (e.2.1 - (q + 1)) + 1 by omega]
      simpa using hpg'

theorem scanned_mem (d : Doc) (e : String × Nat × Nat) (h : e ∈ scanned d) :
    ∃ a, annotAt d e.2.1 e.2.2 = some a ∧ annotKey a = some e.1 := by
  rw [scanned] at h
  by_cases hf : d.acroFormTruthy
  · rw [if_pos hf] at h
    obtain ⟨_, pg, hpg, hmem⟩ := scanPages_mem e d.pages 0 h
    obtain ⟨_, a, ha, hk⟩ := scanAnnots_mem (e.1, e.2.2) pg.annots 0 hmem
    refine ⟨a, ?_, hk⟩
    rw [annotAt]
    simp only [Nat.sub_zero] at hpg ha
    rw [hpg]
    simpa using ha
  · rw [if_neg hf] at h
    simp at h

theorem mem_foldl_dictIns {α : Type} (x : String × α) :
    ∀ (ps : List (String × α)) (m : List (String × α)),
      x ∈ ps.foldl (fun m e => dictIns m e.1 e.2) m → x ∈ m ∨ x ∈ ps := by
  intro ps
  induction ps with
  | nil => intro m h; exact Or.inl h
  | cons e rest ih =>
    intro m h
    rw [List.foldl_cons] at h
    rcases ih (dictIns m e.1 e.2) h with h' | h'
    · rcases mem_dictIns m e.1 e.2 x h' with h'' | h''
      · exact Or.inl h''
      · right
        rw [h'']
        exact List.mem_cons_self _ _
    · right; exact List.mem_cons_of_mem _ h'

theorem fieldsDict_subset (d : Doc) (x : String × Nat × Nat) (h : x ∈ fieldsDict d) :
    x ∈ scanned d := by
  rcases mem_foldl_dictIns x (scanned d) [] h with h' | h'
  · simp at h'
  · exact h'

/-- Entries of the scanner's dict: a position fully determines the recorded
name (the name is read off the annotation that sits there). -/
theorem fieldsDict_fn (d : Doc) :
    ∀ e1, e1 ∈ fieldsDict d → ∀ e2, e2 ∈ fieldsDict d → e1.2 = e2.2 → e1.1 = e2.1 := by
  intro e1 h1 e2 h2 hpos
  obtain ⟨a1, ha1, hk1⟩ := scanned_mem d e1 (fieldsDict_subset d e1 h1)
  obtain ⟨a2, ha2, hk2⟩ := scanned_mem d e2 (fieldsDict_subset d e2 h2)
  rw [hpos] at ha1
  rw [ha2] at ha1
  cases ha1
  rw [hk1] at hk2
  exact (Option.some.injEq _ _).mp hk2

/-! ### Characterizing the update fold pointwise -/

/-- What the update fold leaves at position `(p, i)`, given what was there:
if some dict entry targets the position and its name was submitted, the
stored value is overwritten, else the annotation is untouched. -/
def fillOutcome (V : List (String × String)) (fs : List (String × Nat × Nat))
    (p i : Nat) (o : Option Annot) : Option Annot :=
  match fs.find? (fun e => e.2.1 == p && e.2.2 == i) with
  | some e =>
    match valLookup V e.1 with
    | some v => o.map (fun a => setV a v)
    | none => o
  | none => o

theorem foldl_fillStep_annotAt (V : List (String × String)) :
    ∀ (fs : List (String × Nat × Nat)) (dd : Doc) (p i : Nat),
      (∀ e1, e1 ∈ fs → ∀ e2, e2 ∈ fs → e1.2 = e2.2 → e1.1 = e2.1) →
      annotAt (fs.foldl (fillStep V) dd) p i = fillOutcome V fs p i (annotAt dd p i) := by
  intro fs
  induction fs with
  | nil => intro dd p i _; simp [fillOutcome]
  | cons e0 rest ih =>
    intro dd p i hfn
    have hfn' : ∀ e1, e1 ∈ rest → ∀ e2, e2 ∈ rest → e1.2 = e2.2 → e1.1 = e2.1 :=
      fun e1 h1 e2 h2 => hfn e1 (List.mem_cons_of_mem _ h1) e2 (List.mem_cons_of_mem _ h2)
    rw [List.foldl_cons]
    by_cases hpos : e0.2.1 = p ∧ e0.2.2 = i
    · have hfind : List.find? (fun e => e.2.1 == p && e.2.2 == i) (e0 :: rest) = some e0 :=
        List.find?_cons_of_pos _ (by simp [hpos.1, hpos.2])
      have hname : ∀ e1, List.find? (fun e => e.2.1 == p && e.2.2 == i) rest = some e1 →
          e1.1 = e0.1 := by
        intro e1 hfind1
        have hmem : e1 ∈ rest := List.mem_of_find?_eq_some hfind1
        have hp : (e1.2.1 == p && e1.2.2 == i) = true := by
          have := List.find?_some hfind1
          simpa using this
        simp only [Bool.and_eq_true, beq_iff_eq] at hp
        exact hfn e1 (List.mem_cons_of_mem _ hmem) e0 (List.mem_cons_self _ _)
          (by rw [Prod.ext_iff]; exact ⟨hp.1.trans hpos.1.symm, hp.2.trans hpos.2.symm⟩)
      cases hv : valLookup V e0.1 with
      | some v =>
        have hstep : fillStep V dd e0 = updateAt dd p i v := by
          simp [fillStep, hv, hpos.1, hpos.2]
        rw [hstep, ih (updateAt dd p i v) p i hfn', annotAt_updateAt_self]
        cases hfind2 : List.find? (fun e => e.2.1 == p && e.2.2 == i) rest with
        | some e1 =>
          have he1 : e1.1 = e0.1 := hname e1 hfind2
          simp only [fillOutcome, hfind, hfind2, he1, hv]
          cases annotAt dd p i <;> simp [setV_setV]
        | none => simp only [fillOutcome, hfind, hfind2, hv]
      | none =>
        have hstep : fillStep V dd e0 = dd := by simp [fillStep, hv]
        rw [hstep, ih dd p i hfn']
        cases hfind2 : List.find? (fun e => e.2.1 == p && e.2.2 == i) rest with
        | some e1 =>
          have he1 : e1.1 = e0.1 := hname e1 hfind2
          simp only [fillOutcome, hfind, hfind2, he1, hv]
        | none => simp only [fillOutcome, hfind, hfind2, hv]
    · have hpred : ((fun e : String × Nat × Nat => e.2.1 == p && e.2.2 == i) e0) = false := by
        rcases not_and_or.mp hpos with h | h <;> simp [h]
      have hfind : List.find? (fun e => e.2.1 == p && e.2.2 == i) (e0 :: rest) =
          List.find? (fun e => e.2.1 == p && e.2.2 == i) rest :=
        List.find?_cons_of_neg _ (by simp [hpred])
      have hAA : annotAt (fillStep V dd e0) p i = annotAt dd p i := by
        cases hv : valLookup V e0.1 with
        | some v =>
          have hstep : fillStep V dd e0 = updateAt dd e0.2.1 e0.2.2 v := by
            simp [fillStep, hv]
          rw [hstep]
          exact annotAt_updateAt_other dd e0.2.1 e0.2.2 p i v
            (by rcases not_and_or.mp hpos with h | h
                · exact Or.inl (fun hc => h hc.symm)
                · exact Or.inr (fun hc => h hc.symm))
        | none => simp [fillStep, hv]
      rw [ih (fillStep V dd e0) p i hfn', hAA]
      simp only [fillOutcome, hfind]

/-! ### What the update fold preserves -/

theorem map_listModify {α β : Type} (g : α → β) (f : α → α)
    (hf : ∀ a, g (f a) = g a) :
    ∀ (l : List α) (n : Nat), (listModify l n f).map g = l.map g := by
  intro l
  induction l with
  | nil => intro n; rfl
  | cons a t ih =>
    intro n
    cases n with
    | zero => simp [listModify, hf]
    | succ m => simp [listModify, ih]

theorem foldl_fillStep_pageMap {β : Type} (g' : Page → β)
    (hg' : ∀ pg i v, g' { pg with annots := listModify pg.annots i (fun a => setV a v) } = g' pg)
    (V : List (String × String)) :
    ∀ (fs : List (String × Nat × Nat)) (dd : Doc),
      (fs.foldl (fillStep V) dd).pages.map g' = dd.pages.map g' := by
  intro fs
  induction fs with
  | nil => intro dd; rfl
  | cons e0 rest ih =>
    intro dd
    rw [List.foldl_cons, ih]
    cases hv : valLookup V e0.1 with
    | some v =>
      have hstep : fillStep V dd e0 = updateAt dd e0.2.1 e0.2.2 v := by
        simp [fillStep, hv]
      rw [hstep, updateAt]
      exact map_listModify g' _ (fun pg => hg' pg e0.2.2 v) dd.pages e0.2.1
    | none => simp [fillStep, hv]

theorem foldl_fillStep_acroForm (V : List (String × String)) :
    ∀ (fs : List (String × Nat × Nat)) (dd : Doc),
      (fs.foldl (fillStep V) dd).acroFormTruthy = dd.acroFormTruthy := by
  intro fs
  induction fs with
  | nil => intro dd; rfl
  | cons e0 rest ih =>
    intro dd
    rw [List.foldl_cons, ih]
    cases hv : valLookup V e0.1 <;> simp [fillStep, hv, updateAt]

theorem foldl_fillStep_needApp (V : List (String × String)) :
    ∀ (fs : List (String × Nat × Nat)) (dd : Doc),
      (fs.foldl (fillStep V) dd).needAppearances = dd.needAppearances := by
  intro fs
  induction fs with
  | nil => intro dd; rfl
  | cons e0 rest ih =>
    intro dd
    rw [List.foldl_cons, ih]
    cases hv : valLookup V e0.1 <;> simp [fillStep, hv, updateAt]

/-! ### `fillDoc`: master lemmas -/

theorem fillDoc_def (d : Doc) (V : List (String × String)) :
    fillDoc d V = (fieldsDict (setNeedAppearances d)).foldl (fillStep V) (setNeedAppearances d) :=
  rfl

theorem setNeedAppearances_pages (d : Doc) : (setNeedAppearances d).pages = d.pages := rfl

theorem annotAt_setNeedAppearances (d : Doc) (p i : Nat) :
    annotAt (setNeedAppearances d) p i = annotAt d p i := rfl

theorem fillDoc_acroForm (d : Doc) (V : List (String × String)) :
    (fillDoc d V).acroFormTruthy = true := by
  rw [fillDoc_def, foldl_fillStep_acroForm]
  rfl

theorem fillDoc_needApp (d : Doc) (V : List (String × String)) :
    (fillDoc d V).needAppearances = true := by
  rw [fillDoc_def, foldl_fillStep_needApp]
  rfl

/-- Pointwise effect of `fill` on the document: each position either keeps
its annotation, or — when it is a named widget whose name was submitted —
has exactly its `/V` overwritten with the submitted string. -/
theorem fillDoc_annotAt (d : Doc) (V : List (String × String)) (p i : Nat) :
    annotAt (fillDoc d V) p i = annotAt d p i ∨
      ∃ a n v, annotAt d p i = some a ∧ annotKey a = some n ∧ valLookup V n = some v ∧
        annotAt (fillDoc d V) p i = some (setV a v) := by
  rw [fillDoc_def]
  have h := foldl_fillStep_annotAt V (fieldsDict (setNeedAppearances d))
    (setNeedAppearances d) p i (fieldsDict_fn (setNeedAppearances d))
  rw [annotAt_setNeedAppearances] at h
  cases hfind : List.find? (fun e => e.2.1 == p && e.2.2 == i)
      (fieldsDict (setNeedAppearances d)) with
  | none =>
    left
    rw [h]
    simp only [fillOutcome, hfind]
  | some e =>
    have hmem : e ∈ scanned (setNeedAppearances d) :=
      fieldsDict_subset _ e (List.mem_of_find?_eq_some hfind)
    obtain ⟨a, ha, hk⟩ := scanned_mem _ e hmem
    have hp : (e.2.1 == p && e.2.2 == i) = true := by
      have := List.find?_some hfind
      simpa using this
    simp only [Bool.and_eq_true, beq_iff_eq] at hp
    rw [annotAt_setNeedAppearances, hp.1, hp.2] at ha
    cases hv : valLookup V e.1 with
    | none =>
      left
      rw [h]
      simp only [fillOutcome, hfind, hv]
    | some v =>
      right
      refine ⟨a, e.1, v, ha, hk, hv, ?_⟩
      rw [h]
      simp only [fillOutcome, hfind, hv, ha]
      rfl

/-- `fill` preserves the page count and every page's annotation count. -/
theorem fillDoc_shape (d : Doc) (V : List (String × String)) :
    (fillDoc d V).pages.length = d.pages.length ∧
      ∀ p : Nat, Option.map (fun (pg : Page) => pg.annots.length) (fillDoc d V).pages[p]? =
        Option.map (fun (pg : Page) => pg.annots.length) d.pages[p]? := by
  have h := foldl_fillStep_pageMap (fun pg => pg.annots.length)
    (fun pg i v => by simp [length_listModify]) V
    (fieldsDict (setNeedAppearances d)) (setNeedAppearances d)
  rw [← fillDoc_def, setNeedAppearances_pages] at h
  constructor
  · have := congrArg List.length h
    simpa using this
  · intro p
    have := congrArg (fun l => l[p]?) h
    simpa [List.getElem?_map] using this

/-- `fill` never touches any annotation field other than `/V`; in
particular the whole map of per-annotation observations made by a
`setV`-invariant function is preserved. -/
theorem fillDoc_pageMap {β : Type} (g : Annot → β)
    (hg : ∀ a v, g (setV a v) = g a) (d : Doc) (V : List (String × String)) :
    (fillDoc d V).pages.map (fun pg => pg.annots.map g) =
      d.pages.map (fun pg => pg.annots.map g) := by
  have h := foldl_fillStep_pageMap (fun pg => pg.annots.map g)
    (fun pg i v => by simp [map_listModify g _ (fun a => hg a v)]) V
    (fieldsDict (setNeedAppearances d)) (setNeedAppearances d)
  rw [← fillDoc_def, setNeedAppearances_pages] at h
  exact h

/-! ### Scan congruence and document extensionality (for idempotence) -/

theorem scanAnnots_congr : ∀ (l l' : List Annot) (j : Nat),
    l.map annotKey = l'.map annotKey → scanAnnots l j = scanAnnots l' j := by
  intro l
  induction l with
  | nil =>
    intro l' j h
    cases l' with
    | nil => rfl
    | cons a t => simp at h
  | cons a t ih =>
    intro l' j h
    cases l' with
    | nil => simp at h
    | cons a' t' =>
      simp only [List.map_cons, List.cons.injEq] at h
      simp only [scanAnnots, h.1, ih t' (j + 1) h.2]

theorem scanPages_congr : ∀ (pl pl' : List Page) (q : Nat),
    pl.map (fun pg => pg.annots.map annotKey) = pl'.map (fun pg => pg.annots.map annotKey) →
    scanPages pl q = scanPages pl' q := by
  intro pl
  induction pl with
  | nil =>
    intro pl' q h
    cases pl' with
    | nil => rfl
    | cons pg t => simp at h
  | cons pg t ih =>
    intro pl' q h
    cases pl' with
    | nil => simp at h
    | cons pg' t' =>
      simp only [List.map_cons, List.cons.injEq] at h
      rw [scanPages, scanPages, scanAnnots_congr pg.annots pg'.annots 0 h.1, ih t' (q + 1) h.2]

theorem scanned_fillDoc (d : Doc) (V : List (String × String)) :
    scanned (fillDoc d V) = scanned (setNeedAppearances d) := by
  rw [scanned, scanned, fillDoc_acroForm d V]
  have hA' : (setNeedAppearances d).acroFormTruthy = true := rfl
  rw [hA', if_pos rfl, if_pos rfl]
  exact scanPages_congr _ _ 0 (fillDoc_pageMap annotKey annotKey_setV d V)

theorem setNeedAppearances_eq_self (d : Doc) (h1 : d.acroFormTruthy = true)
    (h2 : d.needAppearances = true) : setNeedAppearances d = d := by
  cases d with
  | mk a n ps => simp_all [setNeedAppearances]

theorem doc_ext (d d' : Doc)
    (hA : d.acroFormTruthy = d'.acroFormTruthy)
    (hN : d.needAppearances = d'.needAppearances)
    (hL : d.pages.length = d'.pages.length)
    (hP : ∀ p i : Nat, annotAt d p i = annotAt d' p i) : d = d' := by
  cases d with
  | mk a n ps =>
    cases d' with
    | mk a' n' ps' =>
      simp only at hA hN hL hP ⊢
      subst hA
      subst hN
      have hps : ps = ps' := by
        apply List.ext_getElem?
        intro p
        cases hpg : ps[p]? with
        | none =>
          have hlen : ps.length ≤ p := List.getElem?_eq_none_iff.mp hpg
          exact (List.getElem?_eq_none (by omega)).symm
        | some pg =>
          have hlt : p < ps.length := by
            by_contra hc
            rw [List.getElem?_eq_none (by omega)] at hpg
            exact Option.noConfusion hpg
          cases hpg' : ps'[p]? with
          | none =>
            have : ps'.length ≤ p := List.getElem?_eq_none_iff.mp hpg'
            omega
          | some pg' =>
            have hpgeq : pg = pg' := by
              cases pg with
              | mk l =>
                cases pg' with
                | mk l' =>
                  have hann : l = l' := by
                    apply List.ext_getElem?
                    intro i
                    have := hP p i
                    rw [annotAt, annotAt] at this
                    simp only at this
                    rw [hpg, hpg'] at this
                    simpa using this
                  rw [hann]
            rw [hpgeq]
      rw [hps]

/-! ### Button groups: on-state observations -/

/-- All annotations of the document, in page-then-annotation order. -/
def allAnnots (d : Doc) : List Annot :=
  (d.pages.map (fun pg => pg.annots)).flatten

/-- Whether a button widget's appearance state is an on-state (any named
state other than the conventional `Off`). -/
def isOnB (a : Annot) : Bool :=
  match a.AS with
  | some s => !(s == "Off")
  | none => false

/-- The number of annotations belonging to button group `g` (via their
parent's name) whose appearance state is on. -/
def onWidgetsIn (d : Doc) (g : String) : Nat :=
  (allAnnots d).countP (fun a => (a.parentName == some g) && isOnB a)

theorem fillDoc_allAnnots_obs (d : Doc) (V : List (String × String)) :
    (allAnnots (fillDoc d V)).map (fun a => (a.parentName, a.AS)) =
      (allAnnots d).map (fun a => (a.parentName, a.AS)) := by
  have h := fillDoc_pageMap (fun a => (a.parentName, a.AS)) (fun a v => rfl) d V
  rw [allAnnots, allAnnots, List.map_flatten, List.map_flatten,
    List.map_map, List.map_map]
  have hc : ((List.map fun (a : Annot) => (a.parentName, a.AS)) ∘ fun (pg : Page) => pg.annots) =
      fun (pg : Page) => pg.annots.map fun a => (a.parentName, a.AS) := rfl
  rw [hc, h]

theorem fillDoc_onWidgetsIn (d : Doc) (V : List (String × String)) (g : String) :
    onWidgetsIn (fillDoc d V) g = onWidgetsIn d g := by
  rw [onWidgetsIn, onWidgetsIn]
  have e1 : ∀ X : Doc,
      (allAnnots X).countP (fun a => (a.parentName == some g) && isOnB a) =
      ((allAnnots X).map (fun a => (a.parentName, a.AS))).countP
        (fun x => (x.1 == some g) &&
          (match x.2 with | some s => !(s == "Off") | none => false)) := by
    intro X
    rw [List.countP_map]
    rfl
  rw [e1, e1, fillDoc_allAnnots_obs d V]

/-! ### Unpacking recorded names -/

theorem nameOf_eq_some (a : Annot) (n : String) (h : nameOf a = some n) :
    ∃ t, a.T = some t ∧ t ≠ "" ∧ stripParens t = n ∧ n ≠ "" := by
  rw [nameOf] at h
  cases ht : a.T with
  | none => rw [ht] at h; exact absurd h (by simp)
  | some t =>
    rw [ht] at h
    by_cases h1 : t = ""
    · simp [h1] at h
    · by_cases h2 : stripParens t = ""
      · simp [h1, h2] at h
      · simp only [h1, h2, if_false, Option.some.injEq] at h
        exact ⟨t, rfl, h1, h, h ▸ h2⟩

theorem annotKey_eq_some (a : Annot) (n : String) (h : annotKey a = some n) :
    a.subtype = some "Widget" ∧ nameOf a = some n := by
  rw [annotKey] at h
  by_cases hs : a.subtype = some "Widget"
  · exact ⟨hs, by rwa [if_pos hs] at h⟩
  · rw [if_neg hs] at h; exact absurd h (by simp)

theorem dictLookup_mem {α : Type} :
    ∀ (m : List (String × α)) (k : String) (v : α),
      dictLookup m k = some v → (k, v) ∈ m := by
  intro m
  induction m with
  | nil => intro k v h; simp [dictLookup] at h
  | cons e rest ih =>
    intro k v h
    rw [dictLookup] at h
    by_cases he : e.1 = k
    · rw [if_pos he, Option.some.injEq] at h
      have : e = (k, v) := Prod.ext he.symm h.symm |>.symm
      rw [← this]
      exact List.mem_cons_self _ _
    · rw [if_neg he] at h
      exact List.mem_cons_of_mem _ (ih k v h)

/-! ### `buildPages`: the per-page size lookup -/

theorem buildPages_spec (tmpl : Template) :
    ∀ (pl : List Page) (k : Nat),
      (k + pl.length ≤ tmpl.page_sizes.length →
        ∃ ps, buildPages pl (k + 1) tmpl = Except.ok ps) ∧
      (tmpl.page_sizes.length < k + pl.length → k ≤ tmpl.page_sizes.length →
        buildPages pl (k + 1) tmpl =
          Except.error (BuildErr.pageSizesIndex (tmpl.page_sizes.length + 1))) := by
  intro pl
  induction pl with
  | nil =>
    intro k
    refine ⟨fun _ => ⟨[], rfl⟩, fun h1 h2 => ?_⟩
    simp at h1
    omega
  | cons pg rest ih =>
    intro k
    constructor
    · intro hle
      simp only [List.length_cons] at hle
      have hk : k < tmpl.page_sizes.length := by omega
      cases hwh : tmpl.page_sizes[k]? with
      | none => exact absurd (List.getElem?_eq_none_iff.mp hwh) (by omega)
      | some wh =>
        obtain ⟨ps, hps⟩ := (ih (k + 1)).1 (by omega)
        refine ⟨buildPage pg (k + 1) tmpl wh.2 :: ps, ?_⟩
        rw [buildPages]
        simp only [Nat.add_sub_cancel]
        rw [hwh, hps]
    · intro h1 h2
      simp only [List.length_cons] at h1
      by_cases hk : k = tmpl.page_sizes.length
      · have hnone : tmpl.page_sizes[k]? = none := List.getElem?_eq_none (by omega)
        rw [buildPages]
        simp only [Nat.add_sub_cancel]
        rw [hnone, hk]
      · have hklt : k < tmpl.page_sizes.length := by omega
        cases hwh : tmpl.page_sizes[k]? with
        | none => exact absurd (List.getElem?_eq_none_iff.mp hwh) (by omega)
        | some wh =>
          have herr := (ih (k + 1)).2 (by omega) (by omega)
          rw [buildPages]
          simp only [Nat.add_sub_cancel]
          rw [hwh, herr]

/-! ## The claims -/

/-! ### C1: the coordinate transform of `build` -/

def c1Fld : FieldSpec := { page := 1, x := 100, y := 50, w := 180, h := 20, name := "kunde_name" }

def c1Tmpl : Template := { fields := [c1Fld], page_sizes := [(595, 842)] }

def c1Doc : Doc := { acroFormTruthy := false, needAppearances := false, pages := [⟨[]⟩] }

/-- Claim C1: at the very field spec of the specification scenario (pixels
x = 100, y = 50, w = 180, h = 20, zoom 2 on a 595 × 842 page), `build`
produces the rectangle `(100, 772, 280, 792)` — it uses the raw pixel
values, never dividing by the zoom factor — while the claimed transform
gives `(50, 797, 230, 817)` with bottom edge `H - y/z - h = 797`.  The two
disagree, so the code does not implement the claimed (and intended)
division by the zoom factor. -/
theorem C1_build_ignores_zoom :
    build c1Doc c1Tmpl = Except.ok
      { acroFormTruthy := true, needAppearances := true,
        pages := [⟨[mkTextWidget c1Fld 842]⟩] } ∧
    (mkTextWidget c1Fld 842).rect = some (100, 772, 280, 792) ∧
    specSynthRect 2 100 50 180 20 842 = (50, 797, 230, 817) ∧
    (some (100, 772, 280, 792) : Option (ℚ × ℚ × ℚ × ℚ)) ≠ some (50, 797, 230, 817) := by
  refine ⟨?_, ?_, ?_, ?_⟩
  · simp [build, c1Tmpl, c1Doc, buildPages, buildPage, setNeedAppearances, c1Fld]
  · simp only [mkTextWidget, c1Fld]
    norm_num
  · simp only [specSynthRect]
    norm_num
  · simp only [ne_eq, Option.some.injEq, Prod.mk.injEq, not_and]
    norm_num

/-! ### C2: radio-group exclusivity under `fill` -/

def c2k1 : Annot :=
  { blankAnnot with
    subtype := some "Widget", T := some "k1", FT := some "Btn",
    AS := some "Off", parentName := some "g" }

def c2k2 : Annot :=
  { blankAnnot with
    subtype := some "Widget", T := some "k2", FT := some "Btn",
    AS := some "Off", parentName := some "g" }

def c2Doc : Doc :=
  { acroFormTruthy := true, needAppearances := false, pages := [⟨[c2k1, c2k2]⟩] }

def c2V : List (String × String) := [("g", "k1")]

/-- Claim C2 is false on the code: the submitted values map the group name
`g` to the name `k1` of a valid member widget of that group, yet after
`fill` no widget of the group is in an on appearance state at all — the
member is not selected, because `fill` never touches appearance states and
never looks values up under a group name. -/
theorem C2_counterexample :
    valLookup c2V "g" = some "k1" ∧
    annotAt c2Doc 0 0 = some c2k1 ∧
    c2k1.parentName = some "g" ∧ nameOf c2k1 = some "k1" ∧
    onWidgetsIn (fillDoc c2Doc c2V) "g" = 0 := by
  refine ⟨rfl, by decide, rfl, by decide, by decide⟩

/-- Claim C2 (amended): `fill` never modifies any appearance state, so the
number of on-state widgets in every button group is exactly what it was
before the call — exclusivity holds afterwards precisely when it held
before, and an entry of `V` keyed by a group name selects nothing. -/
theorem C2_amended_appearance_preserved (d : Doc) (V : List (String × String)) :
    (∀ g : String, onWidgetsIn (fillDoc d V) g = onWidgetsIn d g) ∧
    (∀ p i : Nat, Option.map (fun (a : Annot) => a.AS) (annotAt (fillDoc d V) p i) =
      Option.map (fun (a : Annot) => a.AS) (annotAt d p i)) := by
  constructor
  · intro g
    exact fillDoc_onWidgetsIn d V g
  · intro p i
    rcases fillDoc_annotAt d V p i with h | ⟨a, n, v, ha, _, _, hres⟩
    · rw [h]
    · rw [hres, ha]
      rfl

/-! ### C3: checkboxes absent from the submitted values -/

def c3cb : Annot :=
  { blankAnnot with
    subtype := some "Widget", T := some "c", FT := some "Btn",
    V := some "Yes", AS := some "Yes" }

def c3Doc : Doc :=
  { acroFormTruthy := true, needAppearances := false, pages := [⟨[c3cb]⟩] }

/-- Claim C3 is false on the code: the checkbox named `c` is absent from the
submitted mapping (which is empty), yet after `fill` its stored value is
still the previously stored `Yes` — it is left unchanged, not reset to the
off-state. -/
theorem C3_counterexample :
    nameOf c3cb = some "c" ∧
    valLookup ([] : List (String × String)) "c" = none ∧
    annotAt (fillDoc c3Doc []) 0 0 = some c3cb ∧
    c3cb.V = some "Yes" ∧ c3cb.V ≠ some "Off" := by
  refine ⟨by decide, rfl, by decide, rfl, by decide⟩

/-- Claim C3 (amended): a widget (in particular a checkbox) whose scanned
name is absent from the submitted mapping is left entirely unchanged by
`fill` — its stored value stays whatever it was. -/
theorem C3_amended_absent_unchanged (d : Doc) (V : List (String × String))
    (p i : Nat) (a : Annot) (ha : annotAt d p i = some a)
    (habs : ∀ n, annotKey a = some n → valLookup V n = none) :
    annotAt (fillDoc d V) p i = some a := by
  rcases fillDoc_annotAt d V p i with h | ⟨a', n, v, ha', hk, hv, _⟩
  · rw [h, ha]
  · exfalso
    rw [ha] at ha'
    have haa : a = a' := Option.some.inj ha'
    rw [habs n (haa ▸ hk)] at hv
    exact Option.noConfusion hv

def c3wDoc : Doc :=
  { acroFormTruthy := true, needAppearances := false,
    pages := [⟨[{ blankAnnot with subtype := some "Widget", T := some "cb", V := some "On" }]⟩] }

theorem C3_amended_absent_unchanged_witness :
    annotAt c3wDoc 0 0 =
      some { blankAnnot with subtype := some "Widget", T := some "cb", V := some "On" } ∧
    annotAt (fillDoc c3wDoc [("other", "x")]) 0 0 =
      some { blankAnnot with subtype := some "Widget", T := some "cb", V := some "On" } :=
  ⟨by decide, C3_amended_absent_unchanged c3wDoc [("other", "x")] 0 0 _ (by decide) (by decide)⟩

/-! ### C4: how the scanner determines field names -/

def c4w : Annot :=
  { blankAnnot with
    subtype := some "Widget", FT := some "Btn",
    AS := some "Off", parentName := some "g" }

def c4Doc : Doc :=
  { acroFormTruthy := true, needAppearances := false, pages := [⟨[c4w]⟩] }

/-- Claim C4 is false on the code: a Button-type widget with no direct name
but a parent group named `g` is simply skipped — the scanner records
nothing at all, instead of recording the widget under the inherited parent
name `g`. -/
theorem C4_counterexample :
    annotAt c4Doc 0 0 = some c4w ∧
    c4w.FT = some "Btn" ∧ c4w.T = none ∧ c4w.parentName = some "g" ∧
    getWidgets c4Doc = ([], []) := by
  refine ⟨by decide, rfl, rfl, rfl, by decide⟩

/-- Claim C4 (amended): every recorded field name comes from the direct
`/T` entry of the widget itself (nonempty before and after stripping the
parentheses); a widget without such a direct name is skipped regardless of
its field type or parent. -/
theorem C4_amended_direct_name_only (d : Doc) (n : String) (pos : Nat × Nat)
    (h : dictLookup (getWidgets d).1 n = some pos) :
    ∃ a, annotAt d pos.1 pos.2 = some a ∧ a.subtype = some "Widget" ∧
      ∃ t, a.T = some t ∧ t ≠ "" ∧ stripParens t = n ∧ n ≠ "" := by
  have hmem : (n, pos) ∈ fieldsDict d := dictLookup_mem _ n pos h
  obtain ⟨a, ha, hk⟩ := scanned_mem d (n, pos) (fieldsDict_subset d _ hmem)
  obtain ⟨hsub, hname⟩ := annotKey_eq_some a n hk
  exact ⟨a, ha, hsub, nameOf_eq_some a n hname⟩

def c4wDoc : Doc :=
  { acroFormTruthy := true, needAppearances := false,
    pages := [⟨[{ blankAnnot with subtype := some "Widget", T := some "(nm)" }]⟩] }

theorem C4_amended_direct_name_only_witness :
    dictLookup (getWidgets c4wDoc).1 "nm" = some (0, 0) ∧
    ∃ a, annotAt c4wDoc 0 0 = some a ∧ a.subtype = some "Widget" ∧
      ∃ t, a.T = some t ∧ t ≠ "" ∧ stripParens t = "nm" ∧ "nm" ≠ "" :=
  ⟨by decide, C4_amended_direct_name_only c4wDoc "nm" (0, 0) (by decide)⟩

/-! ### C5: which widget wins on duplicate names -/

def c5w1 : Annot :=
  { blankAnnot with subtype := some "Widget", T := some "n", V := some "first" }

def c5w2 : Annot :=
  { blankAnnot with subtype := some "Widget", T := some "n", V := some "second" }

def c5Doc : Doc :=
  { acroFormTruthy := true, needAppearances := false, pages := [⟨[c5w1, c5w2]⟩] }

/-- Claim C5 is false on the code: two distinct widgets share the name `n`;
the scan sees position `(0, 0)` first and `(0, 1)` second, yet the output
dict maps `n` to the second (last-seen) widget, not the first-seen one. -/
theorem C5_counterexample :
    scanned c5Doc = [("n", 0, 0), ("n", 0, 1)] ∧
    dictLookup (getWidgets c5Doc).1 "n" = some (0, 1) ∧
    annotAt c5Doc 0 1 ≠ annotAt c5Doc 0 0 := by
  refine ⟨by decide, by decide, by decide⟩

/-- Claim C5 (amended): for every name, the scanner output maps it to the
last-seen widget in page-then-annotation scan order (Python dict assignment
overwrites on duplicate keys). -/
theorem C5_amended_last_seen (d : Doc) (n : String) :
    dictLookup (getWidgets d).1 n = lookupLast (scanned d) n := by
  have h := dictLookup_foldl_dictIns n (scanned d) []
  cases hl : lookupLast (scanned d) n with
  | some v =>
    rw [hl] at h
    exact h
  | none =>
    rw [hl] at h
    exact h

/-! ### C6: idempotence of `fill` -/

/-- Claim C6: applying the same submitted mapping twice is idempotent — the
second `fill` scans the same widgets (names and subtypes are untouched by
the first pass) and overwrites each targeted `/V` with the same string, so
the whole document is unchanged, field values included. -/
theorem C6_fill_idempotent (d : Doc) (V : List (String × String)) :
    fillDoc (fillDoc d V) V = fillDoc d V := by
  have hsna : setNeedAppearances (fillDoc d V) = fillDoc d V :=
    setNeedAppearances_eq_self _ (fillDoc_acroForm d V) (fillDoc_needApp d V)
  have hF : fieldsDict (setNeedAppearances (fillDoc d V)) = fieldsDict (setNeedAppearances d) := by
    rw [hsna, fieldsDict, scanned_fillDoc d V]
    rfl
  rw [fillDoc_def (fillDoc d V) V, hF, hsna]
  have hfn := fieldsDict_fn (setNeedAppearances d)
  apply doc_ext
  · rw [foldl_fillStep_acroForm]
  · rw [foldl_fillStep_needApp]
  · have h := foldl_fillStep_pageMap (fun pg => pg.annots.length)
      (fun pg i v => by simp [length_listModify]) V
      (fieldsDict (setNeedAppearances d)) (fillDoc d V)
    have := congrArg List.length h
    simpa using this
  · intro p i
    rw [foldl_fillStep_annotAt V _ _ p i hfn]
    have h1 := foldl_fillStep_annotAt V (fieldsDict (setNeedAppearances d))
      (setNeedAppearances d) p i hfn
    rw [← fillDoc_def] at h1
    cases hfind : List.find? (fun e => e.2.1 == p && e.2.2 == i)
        (fieldsDict (setNeedAppearances d)) with
    | none => simp only [fillOutcome, hfind]
    | some e =>
      cases hv : valLookup V e.1 with
      | none => simp only [fillOutcome, hfind, hv]
      | some v =>
        simp only [fillOutcome, hfind, hv]
        rw [h1]
        simp only [fillOutcome, hfind, hv]
        cases annotAt (setNeedAppearances d) p i <;> simp [setV_setV]

/-! ### C7: synthesize with an empty template -/

/-- Claim C7: `build` rejects a template with zero field specs before
touching the document — it returns the empty-template error and produces no
mutated document at all. -/
theorem C7_empty_template_error (d : Doc) (tmpl : Template) (h : tmpl.fields = []) :
    build d tmpl = Except.error BuildErr.emptyTemplate := by
  simp [build, h]

def c7Doc : Doc := { acroFormTruthy := false, needAppearances := false, pages := [⟨[]⟩] }

def c7Tmpl : Template := { fields := [], page_sizes := [(595, 842)] }

theorem C7_empty_template_error_witness :
    c7Tmpl.fields = [] ∧ build c7Doc c7Tmpl = Except.error BuildErr.emptyTemplate :=
  ⟨rfl, C7_empty_template_error c7Doc c7Tmpl rfl⟩

/-! ### C8: scanning a document without a form container -/

/-- Claim C8: on a document whose AcroForm container is absent (or empty,
hence falsy), the scanner returns an empty name-to-widget dict and an empty
group-selection dict, raising no error. -/
theorem C8_no_acroform_empty (d : Doc) (h : d.acroFormTruthy = false) :
    getWidgets d = ([], []) := by
  simp [getWidgets, fieldsDict, scanned, h]

def c8Doc : Doc :=
  { acroFormTruthy := false, needAppearances := false,
    pages := [⟨[{ blankAnnot with subtype := some "Widget", T := some "x" }]⟩] }

theorem C8_no_acroform_empty_witness :
    c8Doc.acroFormTruthy = false ∧ getWidgets c8Doc = ([], []) :=
  ⟨rfl, C8_no_acroform_empty c8Doc rfl⟩

/-! ### C9: the frame property of `fill` -/

/-- Claim C9: `fill` preserves the page list shape (page count and each
page count of annotations) and changes annotations only by overwriting `/V`
of a widget whose scanned name occurs in the submitted mapping; every other
annotation — non-widgets, unnamed widgets, widgets whose name was not
submitted — and every other attribute of an updated widget is unchanged. -/
theorem C9_fill_frame (d : Doc) (V : List (String × String)) :
    (fillDoc d V).pages.length = d.pages.length ∧
    (∀ p : Nat, Option.map (fun (pg : Page) => pg.annots.length) (fillDoc d V).pages[p]? =
      Option.map (fun (pg : Page) => pg.annots.length) d.pages[p]?) ∧
    (∀ p i : Nat, ∀ a : Annot, annotAt d p i = some a →
      annotAt (fillDoc d V) p i = some a ∨
      ∃ n v, annotKey a = some n ∧ valLookup V n = some v ∧
        annotAt (fillDoc d V) p i = some (setV a v)) := by
  refine ⟨(fillDoc_shape d V).1, (fillDoc_shape d V).2, ?_⟩
  intro p i a ha
  rcases fillDoc_annotAt d V p i with h | ⟨a', n, v, ha', hk, hv, hres⟩
  · left
    rw [h, ha]
  · right
    rw [ha] at ha'
    have haa : a = a' := Option.some.inj ha'
    subst haa
    exact ⟨n, v, hk, hv, hres⟩

def c9w : Annot := { blankAnnot with subtype := some "Widget", T := some "f", V := some "x" }

def c9Doc : Doc := { acroFormTruthy := true, needAppearances := false, pages := [⟨[c9w]⟩] }

def c9V : List (String × String) := [("f", "y")]

theorem C9_fill_frame_witness :
    annotAt c9Doc 0 0 = some c9w ∧
    (annotAt (fillDoc c9Doc c9V) 0 0 = some c9w ∨
      ∃ n v, annotKey c9w = some n ∧ valLookup c9V n = some v ∧
        annotAt (fillDoc c9Doc c9V) 0 0 = some (setV c9w v)) :=
  ⟨by decide, (C9_fill_frame c9Doc c9V).2.2 0 0 c9w (by decide)⟩

/-! ### C10: `build` indexes `page_sizes` for every page -/

/-- Claim C10: `build` (on a nonempty template) reads
`page_sizes[idx - 1]` for every 1-based page number `idx` of the document,
whether or not that page carries field specs; when `page_sizes` covers
every page the lookup is always in bounds and `build` succeeds, while a
shorter list makes it fail exactly at the first uncovered page, whose
number is `page_sizes.length + 1`. -/
theorem C10_page_sizes_indexing (d : Doc) (tmpl : Template) (hne : tmpl.fields ≠ []) :
    (d.pages.length ≤ tmpl.page_sizes.length → ∃ d', build d tmpl = Except.ok d') ∧
    (tmpl.page_sizes.length < d.pages.length →
      build d tmpl = Except.error (BuildErr.pageSizesIndex (tmpl.page_sizes.length + 1))) := by
  constructor
  · intro hle
    obtain ⟨ps, hps⟩ := (buildPages_spec tmpl d.pages 0).1 (by omega)
    refine ⟨{ setNeedAppearances d with pages := ps }, ?_⟩
    simp only [build, if_neg hne, setNeedAppearances_pages]
    simp only [Nat.zero_add] at hps
    rw [hps]
  · intro hlt
    have herr := (buildPages_spec tmpl d.pages 0).2 (by omega) (by omega)
    simp only [build, if_neg hne, setNeedAppearances_pages]
    simp only [Nat.zero_add] at herr
    rw [herr]

def c10Fld : FieldSpec := { page := 1, x := 10, y := 10, w := 50, h := 20, name := "f1" }

def c10Tmpl : Template := { fields := [c10Fld], page_sizes := [(595, 842)] }

def c10DocA : Doc := { acroFormTruthy := false, needAppearances := false, pages := [⟨[]⟩] }

def c10DocB : Doc :=
  { acroFormTruthy := false, needAppearances := false, pages := [⟨[]⟩, ⟨[]⟩] }

theorem C10_page_sizes_indexing_witness :
    c10Tmpl.fields ≠ [] ∧
    (∃ d', build c10DocA c10Tmpl = Except.ok d') ∧
    build c10DocB c10Tmpl = Except.error (BuildErr.pageSizesIndex 2) :=
  ⟨by simp [c10Tmpl],
    (C10_page_sizes_indexing c10DocA c10Tmpl (by simp [c10Tmpl])).1 (by decide),
    (C10_page_sizes_indexing c10DocB c10Tmpl (by simp [c10Tmpl])).2 (by decide)⟩

end PDFApp
